import Mathlib

/-!
Verification development for the mollusk test-harness core
(harness/src/mt.rs, harness/src/compile_accounts.rs,
harness/src/program_mt.rs), shallowly embedded in Lean.

Conventions of the embedding:
* Machine integers (`u64`, lamports, slots, compute units) are `Nat`;
  the harness itself performs no wrapping arithmetic on them.
* A `Pubkey` is its byte sequence (`List Nat`); equality is byte-exact.
  The concrete byte values of the well-known addresses (native loader,
  upgradeable loader, system program, clock and rent sysvar ids) are
  irrelevant to every property below, so they are modelled as distinct
  constants.
* The external execution engine (`InvokeContext::process_instruction` /
  `process_precompile`) is out of scope per the spec and is modelled as
  an arbitrary function `Engine` from the sysvar snapshot, the
  instruction and the compiled transaction accounts to an outcome.
  Compute budget, feature set, epoch stake and the log collector only
  parameterize that opaque call and are folded into it.
* Fallible Rust paths that panic (`or_panic_with`) are modelled with
  `Option`: `none` is the panic.
* The crate `mollusk_svm_keys` (the `KeyMap` and the transaction-account
  compilation helpers), the `AccountStore` trait, and the `Sysvars`
  struct are code of this repository whose source files are not present;
  those pieces are modelled from the spec and marked as such.
-/

/-- A 32-byte address, modelled as its byte sequence. -/
abbrev Pubkey := List Nat

/-- Pubkey::default(), the all-zero address. -/
def Pubkey.defaultKey : Pubkey := List.replicate 32 0

/-- A distinct well-known address used for the fixed id constants. -/
def wellKnownKey (tag : Nat) : Pubkey := List.replicate 31 0 ++ [tag]

/-- NativeLoader1111... (program::loader_keys::NATIVE_LOADER). -/
def NATIVE_LOADER : Pubkey := wellKnownKey 1

/-- BPFLoaderUpgradeab1e1111... (solana_sdk_ids::bpf_loader_upgradeable::id()). -/
def UPGRADEABLE_LOADER : Pubkey := wellKnownKey 2

/-- The system program id (solana_system_program::id()). -/
def SYSTEM_PROGRAM_ID : Pubkey := wellKnownKey 3

/-- The clock sysvar address (solana_sdk_ids::sysvar::clock::id()). -/
def CLOCK_SYSVAR_ID : Pubkey := wellKnownKey 4

/-- The rent sysvar address (solana_sdk_ids::sysvar::rent::id()). -/
def RENT_SYSVAR_ID : Pubkey := wellKnownKey 5

/-- solana_account::Account. -/
structure Account where
  lamports : Nat
  data : List Nat
  owner : Pubkey
  executable : Bool
  rent_epoch : Nat
deriving DecidableEq

/-- Account::default(): zero lamports, empty data, default owner. -/
def Account.defaultAccount : Account :=
  { lamports := 0, data := [], owner := Pubkey.defaultKey, executable := false, rent_epoch := 0 }

/-- solana_instruction::AccountMeta. -/
structure AccountMeta where
  pubkey : Pubkey
  is_signer : Bool
  is_writable : Bool
deriving DecidableEq

/-- solana_instruction::Instruction. -/
structure Instruction where
  program_id : Pubkey
  accounts : List AccountMeta
  data : List Nat
deriving DecidableEq

/-! ## Little-endian byte encoding (u64::to_le_bytes / bincode fixint) -/

/-- Little-endian base-256 digits, `k` bytes of `n`. -/
def leDigits : Nat → Nat → List Nat
  | 0, _ => []
  | k + 1, n => (n % 256) :: leDigits k (n / 256)

/-- u64::to_le_bytes. -/
def u64LeBytes (n : Nat) : List Nat := leDigits 8 n

/-- Read a little-endian byte sequence back as a natural number. -/
def leNat (bs : List Nat) : Nat := bs.foldr (fun b acc => b + 256 * acc) 0

/-! ## Sysvar account payloads (bincode, fixint little-endian)

`solana_clock::Clock` is `{slot: u64, epoch_start_timestamp: i64,
epoch: u64, leader_schedule_epoch: u64, unix_timestamp: i64}`;
`solana_rent::Rent` is `{lamports_per_byte_year: u64,
exemption_threshold: f64, burn_percent: u8}`.  The signed and floating
fields are carried as their 8-byte little-endian bit patterns (`Nat`);
the harness never computes with them, it only moves them around. -/

/-- solana_clock::Clock, fields as their u64 bit patterns. -/
structure Clock where
  slot : Nat
  epoch_start_timestamp : Nat
  epoch : Nat
  leader_schedule_epoch : Nat
  unix_timestamp : Nat
deriving DecidableEq

/-- solana_rent::Rent; `exemption_threshold` is kept as its f64 bit pattern. -/
structure Rent where
  lamports_per_byte_year : Nat
  exemption_threshold : Nat
  burn_percent : Nat
deriving DecidableEq

/-- Bincode serialization of a Clock (40 bytes). -/
def encodeClock (c : Clock) : List Nat :=
  u64LeBytes c.slot ++ u64LeBytes c.epoch_start_timestamp ++ u64LeBytes c.epoch ++
    u64LeBytes c.leader_schedule_epoch ++ u64LeBytes c.unix_timestamp

/-- Bincode deserialization of a Clock; `bincode::deserialize` reads the
first 40 bytes and tolerates trailing bytes, erroring only on a short
buffer. -/
def decodeClock (bs : List Nat) : Option Clock :=
  if 40 ≤ bs.length then
    let r1 := bs.drop 8
    let r2 := r1.drop 8
    let r3 := r2.drop 8
    let r4 := r3.drop 8
    some { slot := leNat (bs.take 8)
         , epoch_start_timestamp := leNat (r1.take 8)
         , epoch := leNat (r2.take 8)
         , leader_schedule_epoch := leNat (r3.take 8)
         , unix_timestamp := leNat (r4.take 8) }
  else none

/-- Bincode serialization of a Rent (17 bytes). -/
def encodeRent (r : Rent) : List Nat :=
  u64LeBytes r.lamports_per_byte_year ++ u64LeBytes r.exemption_threshold ++ [r.burn_percent % 256]

/-- Bincode deserialization of a Rent. -/
def decodeRent (bs : List Nat) : Option Rent :=
  if 17 ≤ bs.length then
    let r1 := bs.drop 8
    let r2 := r1.drop 8
    some { lamports_per_byte_year := leNat (bs.take 8)
         , exemption_threshold := leNat (r1.take 8)
         , burn_percent := r2.headD 0 }
  else none

/-- A Clock whose fields all fit in a u64, as any real Clock does. -/
def Clock.wf (c : Clock) : Prop :=
  c.slot < 2 ^ 64 ∧ c.epoch_start_timestamp < 2 ^ 64 ∧ c.epoch < 2 ^ 64 ∧
    c.leader_schedule_epoch < 2 ^ 64 ∧ c.unix_timestamp < 2 ^ 64

instance (c : Clock) : Decidable c.wf := by unfold Clock.wf; infer_instance

/-- UpgradeableLoaderState::Program is bincode-encoded as the u32 enum tag 2
followed by the 32-byte programdata address. -/
def encodeUpgradeableProgram (programdata_address : Pubkey) : List Nat :=
  [2, 0, 0, 0] ++ programdata_address

/-- Decode `account.state::<UpgradeableLoaderState>()` as far as the harness
uses it: a successful decode of the `Program` variant yields the embedded
programdata address, anything else is `none` (the harness `continue`s). -/
def decodeUpgradeableProgram (bs : List Nat) : Option Pubkey :=
  if bs.take 4 = [2, 0, 0, 0] ∧ 36 ≤ bs.length then some ((bs.drop 4).take 32)
  else none

/-- UpgradeableLoaderState::size_of_programdata_metadata(): u32 tag + u64
slot + Option<Pubkey> upgrade authority = 4 + 8 + 33. -/
def SIZE_OF_PROGRAMDATA_METADATA : Nat := 45

/-! ## Key Map (crate mollusk_svm_keys, source not present) -/

/-- One Key Map slot: an address with its merged privilege flags. -/
structure KeyEntry where
  pubkey : Pubkey
  is_signer : Bool
  is_writable : Bool
deriving DecidableEq

/-- Modelled from the spec: the `mollusk_svm_keys` crate is not present in
the source tree.  Merging one account meta into the Key Map: a duplicate
address updates the existing slot with OR'd privileges, a fresh address is
appended in first-seen order (spec section 4.1 and the Key Map data-model
invariant). -/
def keyMapAddMeta (km : List KeyEntry) (m : AccountMeta) : List KeyEntry :=
  if km.any (fun e => e.pubkey = m.pubkey) then
    km.map (fun e =>
      if e.pubkey = m.pubkey then
        { pubkey := e.pubkey, is_signer := e.is_signer || m.is_signer,
          is_writable := e.is_writable || m.is_writable }
      else e)
  else km ++ [{ pubkey := m.pubkey, is_signer := m.is_signer, is_writable := m.is_writable }]

/-- Modelled from the spec: `KeyMap::compile_from_instruction` walks the
instruction's account metas in order, merging duplicates by address with
OR'd privileges, and appends the program id itself if not already
present. -/
def compile_from_instruction (ix : Instruction) : List KeyEntry :=
  let km := ix.accounts.foldl keyMapAddMeta []
  if km.any (fun e => e.pubkey = ix.program_id) then km
  else km ++ [{ pubkey := ix.program_id, is_signer := false, is_writable := false }]

/-- Modelled from the spec: the multi-instruction variant
`KeyMap::compile_from_instructions` folds all instructions' account metas
together, then appends each instruction's program id if absent. -/
def compile_from_instructions (ixs : List Instruction) : List KeyEntry :=
  let km := (ixs.map Instruction.accounts).flatten.foldl keyMapAddMeta []
  ixs.foldl
    (fun km ix =>
      if km.any (fun e => e.pubkey = ix.program_id) then km
      else km ++ [{ pubkey := ix.program_id, is_signer := false, is_writable := false }])
    km

/-! ## Account compilation (harness/src/compile_accounts.rs) -/

/-- compile_accounts.rs: CompiledAccounts. -/
structure CompiledAccounts where
  program_id_index : Nat
  instruction_accounts : List Nat
  transaction_accounts : List (Pubkey × Account)
deriving DecidableEq

/-- The stub account synthesized for a program id absent from the caller's
accounts: owner is the resolved loader key, executable, otherwise default
(compile_accounts.rs, `stub_out_program_account`). -/
def stub_out_program_account (loader_key : Pubkey) : Account :=
  { Account.defaultAccount with owner := loader_key, executable := true }

/-- Modelled from the spec: transaction-account materialization
(`compile_transaction_accounts_for_instruction_from_store`).  For every Key
Map slot in order, fetch the account from the source; a missing program-id
slot is synthesized by the stub, any other missing slot gets the
caller-supplied default account. -/
def compile_transaction_accounts (km : List KeyEntry) (program_id : Pubkey)
    (getter : Pubkey → Option Account) (stub : Account) : List (Pubkey × Account) :=
  km.map (fun e =>
    (e.pubkey,
      match getter e.pubkey with
      | some a => a
      | none => if e.pubkey = program_id then stub else Account.defaultAccount))

/-- Index of an address in the Key Map (`compiled_instruction.program_id_index`
and the per-meta indices of `compile_instruction_accounts`). -/
def keyMapIndexOf (km : List KeyEntry) (pk : Pubkey) : Nat :=
  km.findIdx (fun e => e.pubkey = pk)

/-- compile_accounts.rs, `compile_accounts`: build the Key Map, the
instruction-account index list, and the transaction accounts, where missing
accounts fall back to the stub (program id) or the default account. -/
def compile_accounts (ix : Instruction) (accounts : List (Pubkey × Account))
    (loader_key : Pubkey) : CompiledAccounts :=
  let km := compile_from_instruction ix
  let getter := fun pk => (accounts.find? (fun kv => kv.fst = pk)).map Prod.snd
  { program_id_index := keyMapIndexOf km ix.program_id
  , instruction_accounts := ix.accounts.map (fun m => keyMapIndexOf km m.pubkey)
  , transaction_accounts :=
      compile_transaction_accounts km ix.program_id getter (stub_out_program_account loader_key) }

/-! ## Program cache (harness/src/program_mt.rs; program.rs not present) -/

/-- A cached program entry, reduced to what the harness reads from it: the
loader that owns the program (`ProgramCacheEntry::account_owner()`) and the
verified ELF bytes. -/
structure CacheEntry where
  account_owner : Pubkey
  elf : List Nat
deriving DecidableEq

/-- The program cache, a keyed table from program id to entry (the
`ProgramCacheForTxBatch` plus the loader-key side index, collapsed to the
map both maintain). -/
abbrev ProgramCache := List (Pubkey × CacheEntry)

/-- Keyed-table insert-or-overwrite (`replenish`: adding an id already
present overwrites it, last write wins). -/
def tableInsert {α : Type} (t : List (Pubkey × α)) (pk : Pubkey) (v : α) :
    List (Pubkey × α) :=
  if t.any (fun kv => kv.fst = pk) then
    t.map (fun kv => if kv.fst = pk then (pk, v) else kv)
  else t ++ [(pk, v)]

/-- Keyed-table lookup. -/
def tableGet {α : Type} (t : List (Pubkey × α)) (pk : Pubkey) : Option α :=
  (t.find? (fun kv => kv.fst = pk)).map Prod.snd

/-- program_mt.rs, `load_program`: look the program id up in the cache. -/
def load_program (cache : ProgramCache) (program_id : Pubkey) : Option CacheEntry :=
  tableGet cache program_id

/-- program_mt.rs, `add_program` (via `replenish`): registers the ELF for
the program id under the loader key, overwriting an existing entry. -/
def add_program (cache : ProgramCache) (program_id loader_key : Pubkey)
    (elf : List Nat) : ProgramCache :=
  tableInsert cache program_id { account_owner := loader_key, elf := elf }

/-! ## Sysvar snapshot (harness/src/sysvar.rs not present; mutators in mt.rs) -/

/-- Modelled from the spec: the `Sysvars` struct (sysvar.rs is not in the
source tree) holds one value per well-known sysvar kind.  The kinds no
claim touches are carried as opaque payloads. -/
structure Sysvars where
  clock : Clock
  epoch_rewards : Nat
  epoch_schedule : Nat
  last_restart_slot : Nat
  rent : Rent
  slot_hashes : List (Nat × List Nat)
  stake_history : Nat
deriving DecidableEq

/-- SlotHashes::MAX_ENTRIES, the capacity of the slot-hash history. -/
def SLOT_HASHES_MAX_ENTRIES : Nat := 512

/-- Modelled from the spec: `SlotHashes::add` prepends the entry for the
new, highest slot (the history is kept newest-first) and evicts the oldest
entry when the history is at capacity. -/
def slotHashesAdd (sh : List (Nat × List Nat)) (slot : Nat) (hash : List Nat) :
    List (Nat × List Nat) :=
  ((slot, hash) :: sh).take SLOT_HASHES_MAX_ENTRIES

/-- mt.rs `expire_blockhash`, lines 267-289: the 32-byte hash data, built
from the current slot's little-endian bytes, the wall-clock seconds'
little-endian bytes, and the fixed marker byte 0xFF at offset 16. -/
def expireHashData (current_slot current_time : Nat) : List Nat :=
  u64LeBytes current_slot ++ u64LeBytes current_time ++ [0xFF] ++ List.replicate 15 0

/-- mt.rs `expire_blockhash`: read the current slot, derive the new hash
from the slot and the wall-clock seconds (`SystemTime::now()`, made an
explicit argument here), add a slot-hash entry for `current_slot + 1`, and
advance the clock's slot to `current_slot + 1`. -/
def expire_blockhash (sv : Sysvars) (now_secs : Nat) : Sysvars :=
  let current_slot := sv.clock.slot
  let new_hash := expireHashData current_slot now_secs
  let next_slot := current_slot + 1
  { sv with
      slot_hashes := slotHashesAdd sv.slot_hashes next_slot new_hash
      clock := { sv.clock with slot := next_slot } }

/-! ## Single-instruction executor (mt.rs, MolluskMt) -/

/-- mollusk_svm_result::ProgramResult, reduced to success or a typed error
code. -/
inductive ProgramResult where
  | ok : ProgramResult
  | err : Nat → ProgramResult
deriving DecidableEq

/-- ProgramResult::is_ok. -/
def ProgramResult.is_ok : ProgramResult → Bool
  | .ok => true
  | .err _ => false

/-- mollusk_svm_result::InstructionResult (the `raw_result` duplicate of
`program_result` is omitted). -/
structure InstructionResult where
  compute_units_consumed : Nat
  execution_time : Nat
  program_result : ProgramResult
  return_data : List Nat
  resulting_accounts : List (Pubkey × Account)
deriving DecidableEq

/-- What one opaque engine invocation produces: the invoke result, the
consumed compute units, the execute timing, the return data, and the
transaction context's account working set after the call. -/
structure EngineOut where
  result : ProgramResult
  compute_units : Nat
  exec_time : Nat
  return_data : List Nat
  post_accounts : List (Pubkey × Account)

/-- The external execution engine
(`InvokeContext::process_instruction` / `process_precompile`), out of scope
per the spec: an arbitrary deterministic function of the sysvar snapshot,
the instruction, and the compiled transaction accounts it is handed. -/
abbrev Engine := Sysvars → Instruction → List (Pubkey × Account) → EngineOut

/-- MolluskMt, reduced to the fields the verified code paths read.  The
compute budget, feature set, epoch stake and config only parameterize the
opaque engine call.  The precompile set (`agave_precompiles`, consulted via
`program::precompile_keys::is_precompile`) is carried as an explicit set of
ids. -/
structure MolluskState where
  precompiles : List Pubkey
  program_cache : ProgramCache
  sysvars : Sysvars
deriving DecidableEq

/-- mt.rs lines 306-314 (and 436-444): resolve the loader key for an
instruction's program id.  A precompile short-circuits to the native
loader; otherwise the program cache is consulted and a miss is the fatal
`MolluskError::ProgramNotCached` panic (`none`). -/
def resolve_loader_key (st : MolluskState) (program_id : Pubkey) : Option Pubkey :=
  if program_id ∈ st.precompiles then some NATIVE_LOADER
  else (load_program st.program_cache program_id).map CacheEntry.account_owner

/-- mt.rs lines 568-587 (and 714-724): the compiled-context variant of
loader resolution additionally short-circuits the system program to the
native loader. -/
def resolve_loader_key_tx (st : MolluskState) (program_id : Pubkey) : Option Pubkey :=
  if program_id ∈ st.precompiles then some NATIVE_LOADER
  else if program_id = SYSTEM_PROGRAM_ID then some NATIVE_LOADER
  else (load_program st.program_cache program_id).map CacheEntry.account_owner

/-- mt.rs `MolluskMt::process_instruction` (and `process_instruction_log`,
which differs only in the log collector and in also returning the
transaction context): resolve the loader key (panicking on a cache miss),
compile the accounts, invoke the engine on the compiled transaction
accounts, then post-process: on success every originally-supplied address
takes its post-execution image when the context still knows it (original
image otherwise); on failure all accounts revert to the original input
list. -/
def process_instruction (eng : Engine) (st : MolluskState) (ix : Instruction)
    (accounts : List (Pubkey × Account)) : Option InstructionResult :=
  match resolve_loader_key st ix.program_id with
  | none => none
  | some loader_key =>
      let ca := compile_accounts ix accounts loader_key
      let out := eng st.sysvars ix ca.transaction_accounts
      let resulting_accounts :=
        if out.result.is_ok then
          accounts.map (fun kv =>
            match tableGet out.post_accounts kv.fst with
            | some a => (kv.fst, a)
            | none => kv)
        else accounts
      some { compute_units_consumed := out.compute_units
           , execution_time := out.exec_time
           , program_result := out.result
           , return_data := out.return_data
           , resulting_accounts := resulting_accounts }

/-! ## Stateful context (mt.rs, MolluskContextMt)

The `AccountStore` trait (account_store.rs is not in the source tree) is
modelled from the spec as a keyed table with `get`, `put` and a default
policy returning the zero account. -/

/-- MolluskContextMt: the harness plus the pluggable account store (the
reference keyed-table implementation, modelled as an association list with
unique addresses). -/
structure ContextState where
  mollusk : MolluskState
  store : List (Pubkey × Account)
deriving DecidableEq

/-- AccountStore::get_account.  Modelled from the spec: keyed-table
lookup. -/
def get_account (store : List (Pubkey × Account)) (pk : Pubkey) : Option Account :=
  tableGet store pk

/-- AccountStore::store_account.  Modelled from the spec: keyed-table
insert-or-replace. -/
def store_account (store : List (Pubkey × Account)) (pk : Pubkey) (a : Account) :
    List (Pubkey × Account) :=
  tableInsert store pk a

/-- AccountStore::default_account.  Modelled from the spec: the default
policy hook returns the zero account. -/
def default_account (_pk : Pubkey) : Account := Account.defaultAccount

/-- mt.rs `load_accounts_for_instructions`, inner loop: walk account metas
in order, skipping addresses already seen, and fetch each fresh address
from the store, falling back to the default account. -/
def loadAccountsGo (store : List (Pubkey × Account)) :
    List AccountMeta → List Pubkey → List (Pubkey × Account) → List (Pubkey × Account)
  | [], _, acc => acc
  | m :: rest, seen, acc =>
      if m.pubkey ∈ seen then loadAccountsGo store rest seen acc
      else
        loadAccountsGo store rest (m.pubkey :: seen)
          (acc ++ [(m.pubkey, (get_account store m.pubkey).getD (default_account m.pubkey))])

/-- mt.rs `load_accounts_for_instructions`: the deduplicated accounts
referenced by the instructions' metas, in first-seen order.  (The source's
branch on `account == Account::default()` pushes the same pair on both
arms.) -/
def load_accounts_for_instructions (store : List (Pubkey × Account))
    (ixs : List Instruction) : List (Pubkey × Account) :=
  loadAccountsGo store ((ixs.map Instruction.accounts).flatten) [] []

/-- mt.rs `consume_mollusk_result`, loop body for one resulting account.
An executable, non-default-address account not owned by the native loader
takes the redeploy path: if owned by the upgradeable loader, decode its
`UpgradeableLoaderState::Program` state (a failed decode `continue`s,
skipping even the store write), fetch the programdata account from the
store and, when its data extends past the metadata, re-register the
embedded ELF in the program cache.  Every other account takes the sysvar
path: a clock- or rent-addressed account with non-empty data is decoded
into the sysvar snapshot.  Finally, unless simulating, the account image
is persisted to the store — note this write is unconditional in the
instruction's success or failure. -/
def consumeOne (simulated : Bool) (cs : ContextState) (kv : Pubkey × Account) :
    ContextState :=
  let pk := kv.fst
  let account := kv.snd
  if account.executable = true ∧ pk ≠ Pubkey.defaultKey ∧ account.owner ≠ NATIVE_LOADER then
    if account.owner = UPGRADEABLE_LOADER then
      match decodeUpgradeableProgram account.data with
      | none => cs
      | some programdata_address =>
          let cs1 :=
            match get_account cs.store programdata_address with
            | some programdata_account =>
                if SIZE_OF_PROGRAMDATA_METADATA < programdata_account.data.length then
                  { cs with
                      mollusk := { cs.mollusk with
                        program_cache := add_program cs.mollusk.program_cache pk account.owner
                          (programdata_account.data.drop SIZE_OF_PROGRAMDATA_METADATA) } }
                else cs
            | none => cs
          if simulated then cs1 else { cs1 with store := store_account cs1.store pk account }
    else
      if simulated then cs else { cs with store := store_account cs.store pk account }
  else
    let cs1 :=
      if pk = CLOCK_SYSVAR_ID ∧ account.data ≠ [] then
        match decodeClock account.data with
        | some parsed =>
            { cs with
                mollusk := { cs.mollusk with
                  sysvars := { cs.mollusk.sysvars with clock := parsed } } }
        | none => cs
      else cs
    let cs2 :=
      if pk = RENT_SYSVAR_ID ∧ account.data ≠ [] then
        match decodeRent account.data with
        | some parsed =>
            { cs1 with
                mollusk := { cs1.mollusk with
                  sysvars := { cs1.mollusk.sysvars with rent := parsed } } }
        | none => cs1
      else cs1
    if simulated then cs2 else { cs2 with store := store_account cs2.store pk account }

/-- mt.rs `consume_mollusk_result`: move the programdata-shaped accounts
(owned by the upgradeable loader, first data byte 3) to the front so they
are persisted before the program accounts that reference them, then fold
the loop body over every resulting account.  (`itertools::partition` may
permute within the two groups; resulting-account addresses are pairwise
distinct, so the stable split used here reaches the same state.) -/
def consume_mollusk_result (cs : ContextState) (result : InstructionResult)
    (simulated : Bool) : ContextState :=
  let parts := result.resulting_accounts.partition
    (fun kv => decide (kv.snd.owner = UPGRADEABLE_LOADER) &&
      decide (kv.snd.data.head? = some 3))
  (parts.fst ++ parts.snd).foldl (consumeOne simulated) cs

/-- mt.rs `MolluskContextMt::process_instruction_log`: load the referenced
accounts from the store, run the single-instruction executor (whose
cache-miss panic is `none`), and absorb the result. -/
def process_instruction_log (eng : Engine) (cs : ContextState) (ix : Instruction)
    (simulated : Bool) : Option (InstructionResult × ContextState) :=
  let accounts := load_accounts_for_instructions cs.store [ix]
  match process_instruction eng cs.mollusk ix accounts with
  | none => none
  | some result => some (result, consume_mollusk_result cs result simulated)

/-- The initial `last_result` of `process_instruction_chain_log`: zero
compute units and time, success, no data, no accounts. -/
def emptyInstructionResult : InstructionResult :=
  { compute_units_consumed := 0, execution_time := 0, program_result := .ok
  , return_data := [], resulting_accounts := [] }

/-- mt.rs `process_instruction_chain_log`, loop: run each instruction
through `process_instruction_log`, remember the last result, and stop as
soon as a result is not ok. -/
def chainGo (eng : Engine) (simulated : Bool) :
    ContextState → List Instruction → InstructionResult →
    Option (InstructionResult × ContextState)
  | cs, [], last => some (last, cs)
  | cs, ix :: rest, _last =>
      match process_instruction_log eng cs ix simulated with
      | none => none
      | some (r, cs') =>
          if r.program_result.is_ok then chainGo eng simulated cs' rest r
          else some (r, cs')

/-- mt.rs `MolluskContextMt::process_instruction_chain_log`. -/
def process_instruction_chain_log (eng : Engine) (cs : ContextState)
    (ixs : List Instruction) (simulated : Bool) :
    Option (InstructionResult × ContextState) :=
  chainGo eng simulated cs ixs emptyInstructionResult

/-- The trace-level model of the chain runner, used to state what the
implementation returns: the list of results of the instructions that were
actually executed (all of them up to and including the first failing one)
together with the final context. -/
def chainTrace (eng : Engine) (simulated : Bool) :
    ContextState → List Instruction → Option (List InstructionResult × ContextState)
  | cs, [] => some ([], cs)
  | cs, ix :: rest =>
      match process_instruction_log eng cs ix simulated with
      | none => none
      | some (r, cs') =>
          if r.program_result.is_ok then
            (chainTrace eng simulated cs' rest).map (fun p => (r :: p.fst, p.snd))
          else some ([r], cs')

/-- Modelled from the spec: `compile_transaction_accounts_from_store`
(crate mollusk_svm_keys, source not present), multi-instruction variant:
for every Key Map slot fetch from the source, synthesizing the stub for
missing program-id slots and the default account otherwise. -/
def compile_transaction_accounts_from_store (km : List KeyEntry)
    (program_ids : List Pubkey) (getter : Pubkey → Option Account) (stub : Account) :
    List (Pubkey × Account) :=
  km.map (fun e =>
    (e.pubkey,
      match getter e.pubkey with
      | some a => a
      | none => if e.pubkey ∈ program_ids then stub else Account.defaultAccount))

/-- mt.rs `process_tx` loop: for each instruction resolve the loader key
(panicking on a cache miss), invoke the engine on the shared transaction
context (which it mutates in place — `post_accounts` becomes the new
context), record the result (the compiled-context executor reports an empty
`resulting_accounts`), persist the referenced accounts from the context on
success (unless simulating), and stop after the first failure. -/
def txGo (eng : Engine) (simulated : Bool) :
    ContextState → List Instruction → List (Pubkey × Account) →
    List InstructionResult →
    Option (List InstructionResult × List (Pubkey × Account) × ContextState)
  | cs, [], ctx, results => some (results, ctx, cs)
  | cs, ix :: rest, ctx, results =>
      match resolve_loader_key_tx cs.mollusk ix.program_id with
      | none => none
      | some _loader_key =>
          let out := eng cs.mollusk.sysvars ix ctx
          let result : InstructionResult :=
            { compute_units_consumed := out.compute_units
            , execution_time := out.exec_time
            , program_result := out.result
            , return_data := out.return_data
            , resulting_accounts := [] }
          let ctx' := out.post_accounts
          if out.result.is_ok then
            let cs' :=
              if simulated then cs
              else
                { cs with
                    store := ix.accounts.foldl
                      (fun store meta =>
                        match tableGet ctx' meta.pubkey with
                        | some a => store_account store meta.pubkey a
                        | none => store)
                      cs.store }
            txGo eng simulated cs' rest ctx' (results ++ [result])
          else some (results ++ [result], ctx', cs)

/-- mt.rs `MolluskContextMt::process_tx`: load every referenced account,
compile one shared transaction-account list over the joint Key Map (missing
program ids get a native-loader-owned executable stub), then run the
instructions against the shared context with fail-fast, success-gated
persistence. -/
def process_tx (eng : Engine) (cs : ContextState) (ixs : List Instruction)
    (simulated : Bool) :
    Option (List InstructionResult × List (Pubkey × Account) × ContextState) :=
  let all_accounts := load_accounts_for_instructions cs.store ixs
  let getter := fun pk => (all_accounts.find? (fun kv => kv.fst = pk)).map Prod.snd
  let km := compile_from_instructions ixs
  let stub : Account :=
    { Account.defaultAccount with owner := NATIVE_LOADER, executable := true }
  let transaction_accounts :=
    compile_transaction_accounts_from_store km (ixs.map Instruction.program_id) getter stub
  txGo eng simulated cs ixs transaction_accounts []

/-! ## Spec-side observation functions -/

/-- The address occurs among the account metas. -/
def metasHas (ms : List AccountMeta) (a : Pubkey) : Bool :=
  ms.any (fun m => m.pubkey = a)

/-- Logical OR of `is_signer` over every occurrence of the address. -/
def metasSigner (ms : List AccountMeta) (a : Pubkey) : Bool :=
  ms.any (fun m => decide (m.pubkey = a) && m.is_signer)

/-- Logical OR of `is_writable` over every occurrence of the address. -/
def metasWritable (ms : List AccountMeta) (a : Pubkey) : Bool :=
  ms.any (fun m => decide (m.pubkey = a) && m.is_writable)

/-- A Rent whose fields fit their machine types. -/
def Rent.wf (r : Rent) : Prop :=
  r.lamports_per_byte_year < 2 ^ 64 ∧ r.exemption_threshold < 2 ^ 64 ∧ r.burn_percent < 256

instance (r : Rent) : Decidable r.wf := by unfold Rent.wf; infer_instance

/-! ## Concrete inputs for the closed witnesses and counterexamples -/

/-- A neutral baseline sysvar snapshot. -/
def sysvarsBase : Sysvars :=
  { clock := ⟨0, 0, 0, 0, 0⟩, epoch_rewards := 0, epoch_schedule := 0
  , last_restart_slot := 0, rent := ⟨0, 0, 0⟩, slot_hashes := [], stake_history := 0 }

/-- An otherwise-default account holding `n` lamports. -/
def lamAccount (n : Nat) : Account := { Account.defaultAccount with lamports := n }

def c1Prog : Pubkey := [7]

def c1X : Pubkey := [9]

/-- An engine that always fails. -/
def c1Engine : Engine := fun _ _ _ =>
  { result := .err 1, compute_units := 0, exec_time := 0, return_data := [], post_accounts := [] }

/-- A context whose store is empty and whose program is registered as a
precompile so that loader resolution succeeds. -/
def c1State : ContextState := ⟨⟨[c1Prog], [], sysvarsBase⟩, []⟩

/-- One instruction referencing the absent signer address `c1X`. -/
def c1Ix : Instruction := ⟨c1Prog, [⟨c1X, true, true⟩], []⟩

def c2Prog : Pubkey := [6]

def c2Y : Pubkey := [8]

def c2Engine : Engine := fun _ _ _ =>
  { result := .err 2, compute_units := 1, exec_time := 1, return_data := [], post_accounts := [] }

def c2State : MolluskState := ⟨[c2Prog], [], sysvarsBase⟩

def c2Ix : Instruction := ⟨c2Prog, [⟨c2Y, false, true⟩], []⟩

def c3Prog : Pubkey := [5]

/-- An engine that succeeds, consuming as many compute units (and time
micros) as the first instruction-data byte. -/
def c3Engine : Engine := fun _ ix _ =>
  { result := .ok, compute_units := ix.data.headD 0, exec_time := ix.data.headD 0
  , return_data := [], post_accounts := [] }

def c3State : ContextState := ⟨⟨[c3Prog], [], sysvarsBase⟩, []⟩

def c3Ix1 : Instruction := ⟨c3Prog, [], [5]⟩

def c3Ix2 : Instruction := ⟨c3Prog, [], [7]⟩

def c4Prog : Pubkey := [4]

def c4A : Pubkey := [10]

def c4B : Pubkey := [11]

def c4C : Pubkey := [12]

/-- An engine dispatching on the instruction data: `[1]` succeeds writing
account A, `[2]` fails, anything else succeeds writing account C. -/
def c4Engine : Engine := fun _ ix _ =>
  if ix.data = [1] then
    { result := .ok, compute_units := 1, exec_time := 1, return_data := []
    , post_accounts := [(c4A, lamAccount 7)] }
  else if ix.data = [2] then
    { result := .err 5, compute_units := 2, exec_time := 2, return_data := []
    , post_accounts := [] }
  else
    { result := .ok, compute_units := 3, exec_time := 3, return_data := []
    , post_accounts := [(c4C, lamAccount 9)] }

def c4State : ContextState := ⟨⟨[c4Prog], [], sysvarsBase⟩, [(c4A, lamAccount 1)]⟩

def c4IxA : Instruction := ⟨c4Prog, [⟨c4A, true, true⟩], [1]⟩

def c4IxB : Instruction := ⟨c4Prog, [⟨c4B, true, true⟩], [2]⟩

def c4IxC : Instruction := ⟨c4Prog, [⟨c4C, true, true⟩], [3]⟩

/-- Two snapshot states agreeing on the clock slot but differing
elsewhere, for the blockhash-derivation witness. -/
def c5SysvarsA : Sysvars :=
  { sysvarsBase with clock := ⟨5, 1, 2, 3, 4⟩, rent := ⟨10, 0, 0⟩ }

def c5SysvarsB : Sysvars :=
  { sysvarsBase with clock := ⟨5, 9, 9, 9, 9⟩, slot_hashes := [(0, [1])], stake_history := 42 }

def c8Addr : Pubkey := [3]

/-- An instruction referencing `c8Addr` twice, once read-only and once
writable, with another address in between. -/
def c8Ix : Instruction :=
  ⟨[2], [⟨c8Addr, false, false⟩, ⟨[13], true, false⟩, ⟨c8Addr, false, true⟩], []⟩

def c9Prog : Pubkey := [14]

def c9State : MolluskState :=
  ⟨[], [([15], { account_owner := NATIVE_LOADER, elf := [] })], sysvarsBase⟩

def c9Ix : Instruction := ⟨c9Prog, [], []⟩

def c10P : Pubkey := wellKnownKey 10

def c10Pd : Pubkey := wellKnownKey 11

def c10PdAcct : Account := { Account.defaultAccount with data := List.replicate 50 8 }

def c10Clock : Clock := ⟨1, 2, 3, 4, 5⟩

def c10Rent : Rent := ⟨7, 8, 9⟩

def c10ClockAcct : Account :=
  { Account.defaultAccount with data := encodeClock c10Clock, owner := wellKnownKey 12 }

def c10RentAcct : Account :=
  { Account.defaultAccount with data := encodeRent c10Rent, owner := wellKnownKey 12 }

def c10ProgAcct : Account :=
  { Account.defaultAccount with
      data := encodeUpgradeableProgram c10Pd
      owner := UPGRADEABLE_LOADER
      executable := true }

def c10State : ContextState := ⟨⟨[], [], sysvarsBase⟩, [(c10Pd, c10PdAcct)]⟩

def c10Result : InstructionResult :=
  { emptyInstructionResult with resulting_accounts :=
      [(CLOCK_SYSVAR_ID, c10ClockAcct), (RENT_SYSVAR_ID, c10RentAcct), (c10P, c10ProgAcct)] }

/-! ## Lemmas -/
theorem leDigits_length (k n : Nat) : (leDigits k n).length = k := by
  induction k generalizing n with
  | zero => rfl
  | succ k ih => simp [leDigits, ih]

theorem leNat_leDigits (k n : Nat) : leNat (leDigits k n) = n % 256 ^ k := by
  induction k generalizing n with
  | zero => simp [leDigits, leNat, Nat.mod_one]
  | succ k ih =>
      have h : (256 : Nat) ^ (k + 1) = 256 * 256 ^ k := by ring
      simp only [leDigits, leNat, List.foldr] at *
      rw [ih, h, Nat.mod_mul]

theorem u64LeBytes_length (n : Nat) : (u64LeBytes n).length = 8 :=
  leDigits_length 8 n

theorem leNat_u64LeBytes (n : Nat) (h : n < 2 ^ 64) : leNat (u64LeBytes n) = n := by
  have h256 : (256 : Nat) ^ 8 = 2 ^ 64 := by norm_num
  rw [u64LeBytes, leNat_leDigits, h256, Nat.mod_eq_of_lt h]

theorem take8_u64_append (x : Nat) (rest : List Nat) :
    (u64LeBytes x ++ rest).take 8 = u64LeBytes x :=
  List.take_left' (u64LeBytes_length x)

theorem drop8_u64_append (x : Nat) (rest : List Nat) :
    (u64LeBytes x ++ rest).drop 8 = rest :=
  List.drop_left' (u64LeBytes_length x)

theorem decodeClock_encodeClock (c : Clock) (hwf : c.wf) :
    decodeClock (encodeClock c) = some c := by
  obtain ⟨h1, h2, h3, h4, h5⟩ := hwf
  have hlen : (encodeClock c).length = 40 := by
    simp [encodeClock, u64LeBytes_length]
  have e1 : encodeClock c = u64LeBytes c.slot ++ (u64LeBytes c.epoch_start_timestamp ++
      (u64LeBytes c.epoch ++ (u64LeBytes c.leader_schedule_epoch ++
        u64LeBytes c.unix_timestamp))) := by
    simp [encodeClock]
  rw [decodeClock, if_pos (by rw [hlen])]
  simp only [e1, take8_u64_append, drop8_u64_append,
    List.take_of_length_le (Nat.le_of_eq (u64LeBytes_length c.unix_timestamp))]
  rw [leNat_u64LeBytes _ h1, leNat_u64LeBytes _ h2, leNat_u64LeBytes _ h3,
    leNat_u64LeBytes _ h4, leNat_u64LeBytes _ h5]

theorem encodeRent_length (r : Rent) : (encodeRent r).length = 17 := by
  simp [encodeRent, u64LeBytes_length]

theorem encodeClock_length (c : Clock) : (encodeClock c).length = 40 := by
  simp [encodeClock, u64LeBytes_length]

theorem decodeRent_encodeRent (r : Rent) (hwf : r.wf) :
    decodeRent (encodeRent r) = some r := by
  obtain ⟨h1, h2, h3⟩ := hwf
  have e1 : encodeRent r = u64LeBytes r.lamports_per_byte_year ++
      (u64LeBytes r.exemption_threshold ++ [r.burn_percent % 256]) := by
    simp [encodeRent]
  rw [decodeRent, if_pos (by rw [encodeRent_length])]
  simp only [e1, take8_u64_append, drop8_u64_append]
  rw [leNat_u64LeBytes _ h1, leNat_u64LeBytes _ h2]
  simp [Nat.mod_eq_of_lt h3]

theorem decodeUpgradeableProgram_encode (pd : Pubkey) (h : pd.length = 32) :
    decodeUpgradeableProgram (encodeUpgradeableProgram pd) = some pd := by
  have h4 : ([2, 0, 0, 0] : List Nat).length = 4 := rfl
  rw [decodeUpgradeableProgram, if_pos]
  · rw [encodeUpgradeableProgram, List.drop_left' h4,
      List.take_of_length_le (Nat.le_of_eq h)]
  · constructor
    · rw [encodeUpgradeableProgram, List.take_left' h4]
    · simp [encodeUpgradeableProgram, h]

theorem slotHashesAdd_head (sh : List (Nat × List Nat)) (s : Nat) (h : List Nat) :
    (slotHashesAdd sh s h).head? = some (s, h) := by
  rw [slotHashesAdd, SLOT_HASHES_MAX_ENTRIES, show (512 : Nat) = 511 + 1 from rfl,
    List.take_succ_cons]
  rfl

theorem slotHashesAdd_tail (sh : List (Nat × List Nat)) (s : Nat) (h : List Nat) :
    (slotHashesAdd sh s h).tail = sh.take (SLOT_HASHES_MAX_ENTRIES - 1) := by
  rw [slotHashesAdd, SLOT_HASHES_MAX_ENTRIES, show (512 : Nat) = 511 + 1 from rfl,
    List.take_succ_cons]
  rfl

/-! ## Claim theorems -/

/-- C2: for every instruction and input account list, if the engine
invocation inside the single-instruction executor reports failure, the
returned `resulting_accounts` is exactly the input account list — every
originally-supplied address keeps its pre-execution image, in order. -/
theorem mt_process_instruction_rollback_on_failure
    (eng : Engine) (st : MolluskState) (ix : Instruction)
    (accounts : List (Pubkey × Account)) (r : InstructionResult)
    (hr : process_instruction eng st ix accounts = some r)
    (hfail : r.program_result.is_ok = false) :
    r.resulting_accounts = accounts := by
  simp only [process_instruction] at hr
  cases hres : resolve_loader_key st ix.program_id with
  | none => rw [hres] at hr; cases hr
  | some lk =>
      rw [hres] at hr
      simp only [Option.some.injEq] at hr
      subst hr
      simp only at hfail
      simp only [hfail, Bool.false_eq_true, if_false]

/-- C2 witness: a concrete failing execution over a one-account input
list returns exactly that list. -/
theorem mt_process_instruction_rollback_on_failure_witness :
    process_instruction c2Engine c2State c2Ix [(c2Y, lamAccount 5)] =
        some { compute_units_consumed := 1, execution_time := 1, program_result := .err 2
             , return_data := [], resulting_accounts := [(c2Y, lamAccount 5)] } ∧
    ({ compute_units_consumed := 1, execution_time := 1, program_result := .err 2
     , return_data := [], resulting_accounts := [(c2Y, lamAccount 5)] :
        InstructionResult }).program_result.is_ok = false ∧
    ({ compute_units_consumed := 1, execution_time := 1, program_result := .err 2
     , return_data := [], resulting_accounts := [(c2Y, lamAccount 5)] :
        InstructionResult }).resulting_accounts = [(c2Y, lamAccount 5)] :=
  ⟨by decide, by decide,
    mt_process_instruction_rollback_on_failure c2Engine c2State c2Ix _ _ (by decide) (by decide)⟩

/-- C9: the single-instruction executor panics (returns `none`, the
`MolluskError::ProgramNotCached` abort) exactly when the instruction's
program id is neither a precompile nor present in the program cache; when
it is cached or a precompile, loader resolution never aborts. -/
theorem mt_process_instruction_panics_iff_unknown_program
    (eng : Engine) (st : MolluskState) (ix : Instruction)
    (accounts : List (Pubkey × Account)) :
    process_instruction eng st ix accounts = none ↔
      ix.program_id ∉ st.precompiles ∧ load_program st.program_cache ix.program_id = none := by
  simp only [process_instruction, resolve_loader_key]
  by_cases hp : ix.program_id ∈ st.precompiles
  · simp [hp]
  · cases hl : load_program st.program_cache ix.program_id <;> simp [hp, hl]

/-- C6: after `expire_blockhash` the clock's slot is the previous slot
plus exactly one, and the newest slot-hash entry's slot equals the new
clock slot. -/
theorem mt_expire_blockhash_monotonic (sv : Sysvars) (t : Nat) :
    (expire_blockhash sv t).clock.slot = sv.clock.slot + 1 ∧
      ((expire_blockhash sv t).slot_hashes.head?.map Prod.fst) =
        some ((expire_blockhash sv t).clock.slot) := by
  refine ⟨rfl, ?_⟩
  rw [show (expire_blockhash sv t).slot_hashes =
      slotHashesAdd sv.slot_hashes (sv.clock.slot + 1)
        (expireHashData sv.clock.slot t) from rfl, slotHashesAdd_head]
  rfl

/-- C5 counterexample: two `expire_blockhash` calls from the identical
sysvar-snapshot state yield different results when the wall clock has
moved, so the result is not a function of the snapshot state alone. -/
theorem mt_expire_blockhash_wallclock_cex :
    expire_blockhash sysvarsBase 0 ≠ expire_blockhash sysvarsBase 1 := by decide

/-- C5 (amended): `expire_blockhash` is deterministic in the snapshot
state together with the wall-clock seconds: the clock slot becomes
`slot + 1`; the new history head is `(slot + 1, hash)` where the hash
depends only on the slot and the seconds (two states agreeing on the slot
derive the same hash); the rest of the history is the old one truncated
to capacity; the hash is 32 bytes with the fixed marker byte 0xFF at
offset 16; and the other snapshot fields are untouched. -/
theorem mt_expire_blockhash_deterministic (sv sv' : Sysvars) (t : Nat)
    (hslot : sv.clock.slot = sv'.clock.slot) :
    (expire_blockhash sv t).clock.slot = sv.clock.slot + 1 ∧
    (expire_blockhash sv t).slot_hashes.head? =
      some (sv.clock.slot + 1, expireHashData sv.clock.slot t) ∧
    (expire_blockhash sv t).slot_hashes.tail =
      sv.slot_hashes.take (SLOT_HASHES_MAX_ENTRIES - 1) ∧
    ((expire_blockhash sv t).slot_hashes.head?.map Prod.snd) =
      ((expire_blockhash sv' t).slot_hashes.head?.map Prod.snd) ∧
    (expireHashData sv.clock.slot t).length = 32 ∧
    (expireHashData sv.clock.slot t)[16]? = some 255 ∧
    (expire_blockhash sv t).rent = sv.rent ∧
    (expire_blockhash sv t).clock.epoch = sv.clock.epoch := by
  have hhead : ∀ (s : Sysvars) (u : Nat), (expire_blockhash s u).slot_hashes.head? =
      some (s.clock.slot + 1, expireHashData s.clock.slot u) := by
    intro s u
    rw [show (expire_blockhash s u).slot_hashes =
        slotHashesAdd s.slot_hashes (s.clock.slot + 1)
          (expireHashData s.clock.slot u) from rfl, slotHashesAdd_head]
  refine ⟨rfl, hhead sv t, ?_, ?_, ?_, ?_, rfl, rfl⟩
  · rw [show (expire_blockhash sv t).slot_hashes =
        slotHashesAdd sv.slot_hashes (sv.clock.slot + 1)
          (expireHashData sv.clock.slot t) from rfl, slotHashesAdd_tail]
  · rw [hhead sv t, hhead sv' t, hslot]
  · simp [expireHashData, u64LeBytes_length]
  · have l1 := u64LeBytes_length sv.clock.slot
    have l2 := u64LeBytes_length t
    rw [expireHashData, List.append_assoc, List.append_assoc,
      List.getElem?_append_right (by simp [l1]), l1]
    rw [List.getElem?_append_right (by simp [l2]), l2]
    rfl

/-- C5 witness: two concrete snapshots agreeing on the clock slot but
differing elsewhere, at wall-clock second 7. -/
theorem mt_expire_blockhash_deterministic_witness :
    c5SysvarsA.clock.slot = c5SysvarsB.clock.slot ∧
    ((expire_blockhash c5SysvarsA 7).clock.slot = c5SysvarsA.clock.slot + 1 ∧
     (expire_blockhash c5SysvarsA 7).slot_hashes.head? =
       some (c5SysvarsA.clock.slot + 1, expireHashData c5SysvarsA.clock.slot 7) ∧
     (expire_blockhash c5SysvarsA 7).slot_hashes.tail =
       c5SysvarsA.slot_hashes.take (SLOT_HASHES_MAX_ENTRIES - 1) ∧
     ((expire_blockhash c5SysvarsA 7).slot_hashes.head?.map Prod.snd) =
       ((expire_blockhash c5SysvarsB 7).slot_hashes.head?.map Prod.snd) ∧
     (expireHashData c5SysvarsA.clock.slot 7).length = 32 ∧
     (expireHashData c5SysvarsA.clock.slot 7)[16]? = some 255 ∧
     (expire_blockhash c5SysvarsA 7).rent = c5SysvarsA.rent ∧
     (expire_blockhash c5SysvarsA 7).clock.epoch = c5SysvarsA.clock.epoch) :=
  ⟨by decide, mt_expire_blockhash_deterministic c5SysvarsA c5SysvarsB 7 (by decide)⟩

/-- C1: evaluation of the stateful context at the failing input.  The
execution fails, the address `c1X` was absent from the store before the
call, and after the call the store contains it (mapped to the default
account): `consume_mollusk_result` persists every resulting account
whenever `simulated` is false, regardless of the execution's failure. -/
theorem mt_store_written_on_failure :
    (process_instruction_log c1Engine c1State c1Ix false).map
        (fun p => (p.fst.program_result, get_account c1State.store c1X,
          get_account p.snd.store c1X)) =
      some (.err 1, none, some Account.defaultAccount) := by decide

/-- C3 counterexample: a two-instruction chain whose instructions consume
5 and 7 compute units (and time micros) returns 7 — the last executed
instruction's values — not the sum 12, refuting the summation claim. -/
theorem mt_chain_no_summation_cex :
    ((process_instruction_chain_log c3Engine c3State [c3Ix1, c3Ix2] false).map
        (fun p => (p.fst.compute_units_consumed, p.fst.execution_time)) = some (7, 7)) ∧
    ((chainTrace c3Engine false c3State [c3Ix1, c3Ix2]).map
        (fun p => p.fst.map (fun r => r.compute_units_consumed)) = some [5, 7]) ∧
    ¬((process_instruction_chain_log c3Engine c3State [c3Ix1, c3Ix2] false).map
        (fun p => p.fst.compute_units_consumed) = some (5 + 7)) := by decide

theorem chainGo_eq_trace (eng : Engine) (simulated : Bool) (ixs : List Instruction) :
    ∀ (cs : ContextState) (last : InstructionResult),
    chainGo eng simulated cs ixs last =
      (chainTrace eng simulated cs ixs).map (fun p => (p.fst.getLastD last, p.snd)) := by
  induction ixs with
  | nil => intro cs last; rfl
  | cons ix rest ih =>
      intro cs last
      simp only [chainGo, chainTrace]
      cases h : process_instruction_log eng cs ix simulated with
      | none => rfl
      | some rc =>
          obtain ⟨r, cs'⟩ := rc
          by_cases hok : r.program_result.is_ok = true
          · simp only [hok, if_true, ih cs' r, Option.map_map]
            cases chainTrace eng simulated cs' rest with
            | none => rfl
            | some p =>
                obtain ⟨l, cfin⟩ := p
                show some (l.getLastD r, cfin) = some ((r :: l).getLastD last, cfin)
                rw [List.getLastD_cons]
          · simp only [Bool.not_eq_true] at hok
            simp [hok]

/-- C3 (amended): the chain runner's returned result is exactly the last
executed instruction's result in every field — `compute_units_consumed`
and `execution_time` are not summed but come, like `program_result` and
`resulting_accounts`, from the last executed instruction (the zero/success
default for an empty chain); the executed instructions are all of them up
to and including the first failure. -/
theorem mt_chain_log_is_last_of_trace (eng : Engine) (cs : ContextState)
    (ixs : List Instruction) (simulated : Bool) :
    process_instruction_chain_log eng cs ixs simulated =
      (chainTrace eng simulated cs ixs).map
        (fun p => (p.fst.getLastD emptyInstructionResult, p.snd)) :=
  chainGo_eq_trace eng simulated ixs cs emptyInstructionResult

/-- C4: evaluation at the failing chain.  Appending instruction `c4IxC`
after the failing `c4IxB` changes neither the result nor any state — in
the snapshot-threading chain runner and in the shared-context `process_tx`
alike — and `c4C` is untouched, so the suffix never ran.  But the
persisted store does not reflect exactly the successful prefix: the
failing instruction's absent address `c4B` was inserted (as the default
account), which running the prefix alone does not do. -/
theorem mt_chain_short_circuit_and_store :
    process_instruction_chain_log c4Engine c4State [c4IxA, c4IxB, c4IxC] false =
      process_instruction_chain_log c4Engine c4State [c4IxA, c4IxB] false ∧
    ((process_instruction_chain_log c4Engine c4State [c4IxA, c4IxB, c4IxC] false).map
        (fun p => (get_account p.snd.store c4C, get_account p.snd.store c4B,
          get_account p.snd.store c4A)) =
      some (none, some Account.defaultAccount, some (lamAccount 7))) ∧
    ((process_instruction_chain_log c4Engine c4State [c4IxA] false).map
        (fun p => get_account p.snd.store c4B) = some none) ∧
    process_tx c4Engine c4State [c4IxA, c4IxB, c4IxC] false =
      process_tx c4Engine c4State [c4IxA, c4IxB] false := by decide

theorem keyMap_any_program_id (ix : Instruction) :
    (compile_from_instruction ix).any (fun e => e.pubkey = ix.program_id) = true := by
  simp only [compile_from_instruction]
  by_cases h : (ix.accounts.foldl keyMapAddMeta []).any
      (fun e => e.pubkey = ix.program_id) = true
  · simp [h]
  · simp only [Bool.not_eq_true] at h
    simp [h, List.any_append]

/-- C7: in the Compiled Accounts produced by the account compiler, the
transaction account at `program_id_index` carries the instruction's
program id. -/
theorem compile_accounts_program_slot (ix : Instruction)
    (accounts : List (Pubkey × Account)) (loader_key : Pubkey) :
    (((compile_accounts ix accounts loader_key).transaction_accounts)[
        (compile_accounts ix accounts loader_key).program_id_index]?).map Prod.fst =
      some ix.program_id := by
  have hex : ∃ e ∈ compile_from_instruction ix,
      (fun e : KeyEntry => decide (e.pubkey = ix.program_id)) e = true :=
    List.any_eq_true.mp (keyMap_any_program_id ix)
  have hidx : (compile_from_instruction ix).findIdx
      (fun e => e.pubkey = ix.program_id) < (compile_from_instruction ix).length :=
    List.findIdx_lt_length_of_exists hex
  have hpred := List.findIdx_getElem (w := hidx)
  simp only [compile_accounts, keyMapIndexOf, compile_transaction_accounts]
  rw [List.getElem?_map, List.getElem?_eq_getElem hidx]
  simp only [Option.map_some', Option.some.injEq]
  exact of_decide_eq_true hpred

theorem keyMapAddMeta_find (km : List KeyEntry) (m : AccountMeta) (a : Pubkey) :
    (keyMapAddMeta km m).find? (fun e => e.pubkey = a) =
      if a = m.pubkey then
        match km.find? (fun e => e.pubkey = a) with
        | some e => some { pubkey := e.pubkey, is_signer := e.is_signer || m.is_signer
                         , is_writable := e.is_writable || m.is_writable }
        | none => some { pubkey := m.pubkey, is_signer := m.is_signer
                       , is_writable := m.is_writable }
      else km.find? (fun e => e.pubkey = a) := by
  unfold keyMapAddMeta
  by_cases hany : km.any (fun e => e.pubkey = m.pubkey) = true
  · rw [if_pos hany, List.find?_map]
    have hcomp : ((fun e : KeyEntry => decide (e.pubkey = a)) ∘ fun e =>
        if e.pubkey = m.pubkey then
          { pubkey := e.pubkey, is_signer := e.is_signer || m.is_signer,
            is_writable := e.is_writable || m.is_writable }
        else e) = fun e : KeyEntry => decide (e.pubkey = a) := by
      funext e
      by_cases hem : e.pubkey = m.pubkey <;> simp [hem]
    rw [hcomp]
    by_cases ha : a = m.pubkey
    · rw [if_pos ha]
      cases hf : km.find? (fun e => e.pubkey = a) with
      | none =>
          rcases List.any_eq_true.mp hany with ⟨x, hx, hpx⟩
          exact absurd (List.find?_eq_none.mp hf x hx) (by simp_all)
      | some e =>
          have he : e.pubkey = a := by simpa using List.find?_some hf
          simp [he, ha]
    · rw [if_neg ha]
      cases hf : km.find? (fun e => e.pubkey = a) with
      | none => rfl
      | some e =>
          have he : e.pubkey = a := by simpa using List.find?_some hf
          have hne : ¬(e.pubkey = m.pubkey) := by rw [he]; exact ha
          simp [hne]
  · rw [if_neg hany, List.find?_append]
    simp only [Bool.not_eq_true] at hany
    by_cases ha : a = m.pubkey
    · rw [if_pos ha]
      have hnone : km.find? (fun e => e.pubkey = a) = none := by
        rw [List.find?_eq_none]
        intro x hx
        have hfalse := List.any_eq_false.mp hany x hx
        simp only [decide_eq_true_eq] at hfalse ⊢
        rw [ha]
        exact hfalse
      rw [hnone]
      rw [List.find?_cons_of_pos _ (by simp [ha])]
      rfl
    · rw [if_neg ha]
      have hone : List.find? (fun e : KeyEntry => e.pubkey = a)
          [{ pubkey := m.pubkey, is_signer := m.is_signer, is_writable := m.is_writable }] =
            none := by
        rw [List.find?_eq_none]
        intro x hx
        simp only [List.mem_singleton] at hx
        subst hx
        simp only [decide_eq_true_eq]
        exact fun h => ha h.symm
      rw [hone]
      cases km.find? (fun e => e.pubkey = a) <;> rfl

theorem foldl_keyMapAddMeta_find (ms : List AccountMeta) :
    ∀ (km : List KeyEntry) (a : Pubkey),
    (ms.foldl keyMapAddMeta km).find? (fun e => e.pubkey = a) =
      match km.find? (fun e => e.pubkey = a) with
      | some e => some { pubkey := e.pubkey, is_signer := e.is_signer || metasSigner ms a
                       , is_writable := e.is_writable || metasWritable ms a }
      | none =>
          if metasHas ms a then
            some { pubkey := a, is_signer := metasSigner ms a
                 , is_writable := metasWritable ms a }
          else none := by
  induction ms with
  | nil =>
      intro km a
      simp only [List.foldl_nil, metasSigner, metasWritable, metasHas, List.any_nil,
        Bool.or_false, if_false]
      cases km.find? (fun e => e.pubkey = a) with
      | none => rfl
      | some e => rfl
  | cons m rest ih =>
      intro km a
      rw [List.foldl_cons, ih (keyMapAddMeta km m) a, keyMapAddMeta_find]
      by_cases ha : a = m.pubkey
      · rw [if_pos ha]
        cases hf : km.find? (fun e => e.pubkey = a) with
        | some e => simp [metasSigner, metasWritable, metasHas, ha, Bool.or_assoc]
        | none => simp [metasSigner, metasWritable, metasHas, ha]
      · rw [if_neg ha]
        have hd : (decide (m.pubkey = a)) = false := by
          simp only [decide_eq_false_iff_not]
          exact fun h => ha h.symm
        cases hf : km.find? (fun e => e.pubkey = a) with
        | some e => simp [metasSigner, metasWritable, metasHas, hd]
        | none => simp [metasSigner, metasWritable, metasHas, hd]

theorem keyMapAddMeta_keys (km : List KeyEntry) (m : AccountMeta) :
    (keyMapAddMeta km m).map KeyEntry.pubkey =
      if km.any (fun e => e.pubkey = m.pubkey) then km.map KeyEntry.pubkey
      else km.map KeyEntry.pubkey ++ [m.pubkey] := by
  unfold keyMapAddMeta
  by_cases hany : km.any (fun e => e.pubkey = m.pubkey) = true
  · rw [if_pos hany, if_pos hany, List.map_map]
    have hcomp : (KeyEntry.pubkey ∘ fun e =>
        if e.pubkey = m.pubkey then
          { pubkey := e.pubkey, is_signer := e.is_signer || m.is_signer,
            is_writable := e.is_writable || m.is_writable }
        else e) = KeyEntry.pubkey := by
      funext e
      by_cases hem : e.pubkey = m.pubkey <;> simp [hem]
    rw [hcomp]
  · rw [if_neg hany, if_neg hany, List.map_append]
    rfl

theorem keyMapAddMeta_nodup (km : List KeyEntry) (m : AccountMeta)
    (h : (km.map KeyEntry.pubkey).Nodup) :
    ((keyMapAddMeta km m).map KeyEntry.pubkey).Nodup := by
  rw [keyMapAddMeta_keys]
  by_cases hany : km.any (fun e => e.pubkey = m.pubkey) = true
  · rwa [if_pos hany]
  · rw [if_neg hany]
    simp only [Bool.not_eq_true] at hany
    have hmem : m.pubkey ∉ km.map KeyEntry.pubkey := by
      intro hm
      rcases List.mem_map.mp hm with ⟨e, he, hpk⟩
      have := List.any_eq_false.mp hany e he
      simp [hpk] at this
    simp [List.nodup_append, h, hmem]

theorem foldl_keyMapAddMeta_nodup (ms : List AccountMeta) :
    ∀ (km : List KeyEntry), (km.map KeyEntry.pubkey).Nodup →
      ((ms.foldl keyMapAddMeta km).map KeyEntry.pubkey).Nodup := by
  induction ms with
  | nil => intro km h; exact h
  | cons m rest ih =>
      intro km h
      rw [List.foldl_cons]
      exact ih _ (keyMapAddMeta_nodup km m h)

theorem compile_from_instruction_nodup (ix : Instruction) :
    ((compile_from_instruction ix).map KeyEntry.pubkey).Nodup := by
  have h0 : ((ix.accounts.foldl keyMapAddMeta []).map KeyEntry.pubkey).Nodup :=
    foldl_keyMapAddMeta_nodup ix.accounts [] List.nodup_nil
  simp only [compile_from_instruction]
  by_cases hany : (ix.accounts.foldl keyMapAddMeta []).any
      (fun e => e.pubkey = ix.program_id) = true
  · rwa [if_pos hany]
  · rw [if_neg hany]
    simp only [Bool.not_eq_true] at hany
    have hmem : ix.program_id ∉ (ix.accounts.foldl keyMapAddMeta []).map KeyEntry.pubkey := by
      intro hm
      rcases List.mem_map.mp hm with ⟨e, he, hpk⟩
      have := List.any_eq_false.mp hany e he
      simp [hpk] at this
    rw [List.map_append]
    simp [List.nodup_append, h0, hmem]

theorem filter_length_of_nodup :
    ∀ (km : List KeyEntry), (km.map KeyEntry.pubkey).Nodup → ∀ (a : Pubkey),
    (km.filter (fun e => e.pubkey = a)).length =
      if (km.find? (fun e => e.pubkey = a)).isSome then 1 else 0 := by
  intro km
  induction km with
  | nil => intro _ a; rfl
  | cons e rest ih =>
      intro hnd a
      simp only [List.map_cons, List.nodup_cons] at hnd
      obtain ⟨hnotmem, hrest⟩ := hnd
      by_cases he : e.pubkey = a
      · rw [List.filter_cons_of_pos (by simp [he]),
          List.find?_cons_of_pos _ (by simp [he])]
        have hres : rest.filter (fun x => x.pubkey = a) = [] := by
          rw [List.filter_eq_nil_iff]
          intro x hx
          simp only [decide_eq_true_eq]
          intro hxa
          exact hnotmem (by
            rw [he, ← hxa]
            exact List.mem_map_of_mem KeyEntry.pubkey hx)
        simp [hres]
      · rw [List.filter_cons_of_neg (by simp [he]),
          List.find?_cons_of_neg _ (by simp [he])]
        exact ih hrest a

/-- C8: an address referenced more than once by an instruction's account
metas occupies exactly one Key Map slot, whose `is_signer` and
`is_writable` flags are the logical OR over every occurrence. -/
theorem keyMap_dedup_privilege_union (ix : Instruction) (addr : Pubkey)
    (h : metasHas ix.accounts addr = true) :
    ((compile_from_instruction ix).filter (fun e => e.pubkey = addr)).length = 1 ∧
    (compile_from_instruction ix).find? (fun e => e.pubkey = addr) =
      some { pubkey := addr, is_signer := metasSigner ix.accounts addr
           , is_writable := metasWritable ix.accounts addr } := by
  have hfind0 : (ix.accounts.foldl keyMapAddMeta []).find? (fun e => e.pubkey = addr) =
      some { pubkey := addr, is_signer := metasSigner ix.accounts addr
           , is_writable := metasWritable ix.accounts addr } := by
    rw [foldl_keyMapAddMeta_find]
    simp [h]
  have hfind : (compile_from_instruction ix).find? (fun e => e.pubkey = addr) =
      some { pubkey := addr, is_signer := metasSigner ix.accounts addr
           , is_writable := metasWritable ix.accounts addr } := by
    simp only [compile_from_instruction]
    by_cases hany : (ix.accounts.foldl keyMapAddMeta []).any
        (fun e => e.pubkey = ix.program_id) = true
    · rw [if_pos hany]
      exact hfind0
    · rw [if_neg hany, List.find?_append, hfind0]
      rfl
  refine ⟨?_, hfind⟩
  rw [filter_length_of_nodup _ (compile_from_instruction_nodup ix), hfind]
  rfl

/-- C8 witness: the instruction `c8Ix` references `c8Addr` once read-only
and once writable; the compiled Key Map holds exactly one slot for it,
with `is_writable = true` and `is_signer = false`. -/
theorem keyMap_dedup_privilege_union_witness :
    metasHas c8Ix.accounts c8Addr = true ∧
    metasWritable c8Ix.accounts c8Addr = true ∧
    metasSigner c8Ix.accounts c8Addr = false ∧
    (((compile_from_instruction c8Ix).filter (fun e => e.pubkey = c8Addr)).length = 1 ∧
     (compile_from_instruction c8Ix).find? (fun e => e.pubkey = c8Addr) =
       some { pubkey := c8Addr, is_signer := metasSigner c8Ix.accounts c8Addr
            , is_writable := metasWritable c8Ix.accounts c8Addr }) :=
  ⟨by decide, by decide, by decide, keyMap_dedup_privilege_union c8Ix c8Addr (by decide)⟩

theorem tableGet_tableInsert_self {α : Type} (t : List (Pubkey × α)) (pk : Pubkey) (v : α) :
    tableGet (tableInsert t pk v) pk = some v := by
  unfold tableGet tableInsert
  by_cases hany : t.any (fun kv => kv.fst = pk) = true
  · rw [if_pos hany, List.find?_map]
    have hcomp : ((fun kv : Pubkey × α => decide (kv.fst = pk)) ∘ fun kv =>
        if kv.fst = pk then (pk, v) else kv) =
          fun kv : Pubkey × α => decide (kv.fst = pk) := by
      funext kv
      by_cases hk : kv.fst = pk <;> simp [hk]
    rw [hcomp]
    cases hf : t.find? (fun kv => kv.fst = pk) with
    | none =>
        rcases List.any_eq_true.mp hany with ⟨x, hx, hpx⟩
        exact absurd (List.find?_eq_none.mp hf x hx) (by simp_all)
    | some kv0 =>
        have hk : kv0.fst = pk := by simpa using List.find?_some hf
        simp [hk]
  · rw [if_neg hany, List.find?_append]
    simp only [Bool.not_eq_true] at hany
    have hnone : t.find? (fun kv => kv.fst = pk) = none := by
      rw [List.find?_eq_none]
      intro x hx
      have := List.any_eq_false.mp hany x hx
      simp_all
    rw [hnone, List.find?_cons_of_pos _ (by simp)]
    rfl

theorem consumeOne_simulated_store (cs : ContextState) (kv : Pubkey × Account) :
    (consumeOne true cs kv).store = cs.store := by
  unfold consumeOne
  dsimp only
  repeat' split
  all_goals first | rfl | simp_all

theorem foldl_consumeOne_simulated_store :
    ∀ (l : List (Pubkey × Account)) (cs : ContextState),
    (l.foldl (consumeOne true) cs).store = cs.store := by
  intro l
  induction l with
  | nil => intro cs; rfl
  | cons kv rest ih =>
      intro cs
      rw [List.foldl_cons, ih]
      exact consumeOne_simulated_store cs kv

theorem consume_mollusk_result_simulated_store (cs : ContextState)
    (r : InstructionResult) :
    (consume_mollusk_result cs r true).store = cs.store := by
  unfold consume_mollusk_result
  exact foldl_consumeOne_simulated_store _ cs

theorem process_instruction_log_simulated_store (eng : Engine) (cs : ContextState)
    (ix : Instruction) (r : InstructionResult) (cs' : ContextState)
    (h : process_instruction_log eng cs ix true = some (r, cs')) :
    cs'.store = cs.store := by
  simp only [process_instruction_log] at h
  cases hp : process_instruction eng cs.mollusk ix
      (load_accounts_for_instructions cs.store [ix]) with
  | none => rw [hp] at h; cases h
  | some result =>
      rw [hp] at h
      simp only [Option.some.injEq, Prod.mk.injEq] at h
      obtain ⟨_, h2⟩ := h
      rw [← h2]
      exact consume_mollusk_result_simulated_store cs result

theorem consumeOne_clock (cs : ContextState) (ca : Account) (c : Clock)
    (hexe : ca.executable = false) (hdata : ca.data = encodeClock c) (hwf : c.wf) :
    consumeOne true cs (CLOCK_SYSVAR_ID, ca) =
      { cs with mollusk := { cs.mollusk with
          sysvars := { cs.mollusk.sysvars with clock := c } } } := by
  have hne : ca.data ≠ [] := by
    rw [hdata]
    intro hnil
    have hlen := encodeClock_length c
    rw [hnil] at hlen
    simp at hlen
  have hdec : decodeClock ca.data = some c := by
    rw [hdata]
    exact decodeClock_encodeClock c hwf
  have hOuter : ¬(ca.executable = true ∧ (CLOCK_SYSVAR_ID : Pubkey) ≠ Pubkey.defaultKey ∧
      ca.owner ≠ NATIVE_LOADER) := by simp [hexe]
  have hnotrent : ¬((CLOCK_SYSVAR_ID : Pubkey) = RENT_SYSVAR_ID ∧ ca.data ≠ []) :=
    fun hcon => absurd hcon.1 (by decide)
  have hclockcond : (CLOCK_SYSVAR_ID : Pubkey) = CLOCK_SYSVAR_ID ∧ ca.data ≠ [] := ⟨rfl, hne⟩
  unfold consumeOne
  dsimp only
  rw [if_neg hOuter, if_neg hnotrent, if_pos hclockcond, hdec]
  rfl

theorem consumeOne_rent (cs : ContextState) (ra : Account) (rt : Rent)
    (hexe : ra.executable = false) (hdata : ra.data = encodeRent rt) (hwf : rt.wf) :
    consumeOne true cs (RENT_SYSVAR_ID, ra) =
      { cs with mollusk := { cs.mollusk with
          sysvars := { cs.mollusk.sysvars with rent := rt } } } := by
  have hne : ra.data ≠ [] := by
    rw [hdata]
    intro hnil
    have hlen := encodeRent_length rt
    rw [hnil] at hlen
    simp at hlen
  have hdec : decodeRent ra.data = some rt := by
    rw [hdata]
    exact decodeRent_encodeRent rt hwf
  have hOuter : ¬(ra.executable = true ∧ (RENT_SYSVAR_ID : Pubkey) ≠ Pubkey.defaultKey ∧
      ra.owner ≠ NATIVE_LOADER) := by simp [hexe]
  have hnotclock : ¬((RENT_SYSVAR_ID : Pubkey) = CLOCK_SYSVAR_ID ∧ ra.data ≠ []) :=
    fun hcon => absurd hcon.1 (by decide)
  have hrentcond : (RENT_SYSVAR_ID : Pubkey) = RENT_SYSVAR_ID ∧ ra.data ≠ [] := ⟨rfl, hne⟩
  unfold consumeOne
  dsimp only
  rw [if_neg hOuter, if_pos hrentcond, if_neg hnotclock, hdec]
  rfl

theorem consumeOne_upgradeable (cs : ContextState) (p : Pubkey) (pa : Account)
    (pd : Pubkey) (pdAcct : Account)
    (hexe : pa.executable = true) (hown : pa.owner = UPGRADEABLE_LOADER)
    (hp : p ≠ Pubkey.defaultKey)
    (hdata : pa.data = encodeUpgradeableProgram pd) (hlen : pd.length = 32)
    (hstore : get_account cs.store pd = some pdAcct)
    (hbig : SIZE_OF_PROGRAMDATA_METADATA < pdAcct.data.length) :
    consumeOne true cs (p, pa) =
      { cs with mollusk := { cs.mollusk with
          program_cache := add_program cs.mollusk.program_cache p pa.owner
            (pdAcct.data.drop SIZE_OF_PROGRAMDATA_METADATA) } } := by
  have hdec : decodeUpgradeableProgram pa.data = some pd := by
    rw [hdata]
    exact decodeUpgradeableProgram_encode pd hlen
  have hnn : pa.owner ≠ NATIVE_LOADER := by rw [hown]; decide
  unfold consumeOne
  dsimp only
  rw [if_pos ⟨hexe, hp, hnn⟩, if_pos hown, hdec]
  dsimp only
  rw [hstore]
  dsimp only
  rw [if_pos hbig]
  rfl

/-- C10: a simulated execution never writes the Account Store — in full
generality for `process_instruction_log` with `simulated = true` — yet the
harness's other shared state is still mutated from the resulting accounts:
a resulting account at the clock (resp. rent) sysvar address has its bytes
decoded into the sysvar snapshot, and a resulting executable account owned
by the upgradeable loader whose programdata account is present in the
store has the embedded ELF re-registered in the Program Cache under the
program's address. -/
theorem ctx_simulate_not_side_effect_free
    (cs : ContextState) (r : InstructionResult) (c : Clock) (rt : Rent)
    (ca ra pa pdAcct : Account) (p pd : Pubkey)
    (hcexe : ca.executable = false) (hcdata : ca.data = encodeClock c) (hcwf : c.wf)
    (hcown : ca.owner ≠ UPGRADEABLE_LOADER)
    (hrexe : ra.executable = false) (hrdata : ra.data = encodeRent rt) (hrwf : rt.wf)
    (hrown : ra.owner ≠ UPGRADEABLE_LOADER)
    (hpexe : pa.executable = true) (hpown : pa.owner = UPGRADEABLE_LOADER)
    (hp : p ≠ Pubkey.defaultKey)
    (hpdata : pa.data = encodeUpgradeableProgram pd) (hpdlen : pd.length = 32)
    (hstore : get_account cs.store pd = some pdAcct)
    (hbig : SIZE_OF_PROGRAMDATA_METADATA < pdAcct.data.length)
    (hres : r.resulting_accounts = [(CLOCK_SYSVAR_ID, ca), (RENT_SYSVAR_ID, ra), (p, pa)]) :
    (∀ (eng : Engine) (cs0 : ContextState) (ix : Instruction) (r0 : InstructionResult)
        (cs0' : ContextState), process_instruction_log eng cs0 ix true = some (r0, cs0') →
          cs0'.store = cs0.store) ∧
    (consume_mollusk_result cs r true).store = cs.store ∧
    (consume_mollusk_result cs r true).mollusk.sysvars.clock = c ∧
    (consume_mollusk_result cs r true).mollusk.sysvars.rent = rt ∧
    load_program (consume_mollusk_result cs r true).mollusk.program_cache p =
      some { account_owner := pa.owner
           , elf := pdAcct.data.drop SIZE_OF_PROGRAMDATA_METADATA } := by
  have hput1 : (decide (ca.owner = UPGRADEABLE_LOADER) &&
      decide (ca.data.head? = some 3)) = false := by simp [hcown]
  have hput2 : (decide (ra.owner = UPGRADEABLE_LOADER) &&
      decide (ra.data.head? = some 3)) = false := by simp [hrown]
  have hput3 : (decide (pa.owner = UPGRADEABLE_LOADER) &&
      decide (pa.data.head? = some 3)) = false := by
    simp [hpdata, encodeUpgradeableProgram]
  have hrun : consume_mollusk_result cs r true =
      { cs with mollusk := { cs.mollusk with
          program_cache := add_program cs.mollusk.program_cache p pa.owner
            (pdAcct.data.drop SIZE_OF_PROGRAMDATA_METADATA)
          sysvars := { cs.mollusk.sysvars with clock := c, rent := rt } } } := by
    unfold consume_mollusk_result
    rw [hres]
    dsimp only
    rw [List.partition_eq_filter_filter]
    dsimp only
    rw [List.filter_cons_of_neg (by simp [hput1]),
      List.filter_cons_of_neg (by simp [hput2]),
      List.filter_cons_of_neg (by simp [hput3]),
      List.filter_nil]
    rw [List.filter_cons_of_pos (by simp [hput1]),
      List.filter_cons_of_pos (by simp [hput2]),
      List.filter_cons_of_pos (by simp [hput3]),
      List.filter_nil]
    rw [List.nil_append]
    simp only [List.foldl_cons, List.foldl_nil]
    rw [consumeOne_clock cs ca c hcexe hcdata hcwf]
    rw [consumeOne_rent _ ra rt hrexe hrdata hrwf]
    exact consumeOne_upgradeable _ p pa pd pdAcct hpexe hpown hp hpdata hpdlen hstore hbig
  refine ⟨fun eng cs0 ix r0 cs0' h =>
    process_instruction_log_simulated_store eng cs0 ix r0 cs0' h, ?_, ?_, ?_, ?_⟩
  · rw [hrun]
  · rw [hrun]
  · rw [hrun]
  · rw [hrun]
    exact tableGet_tableInsert_self cs.mollusk.program_cache p _

/-- C10 witness: a concrete simulated absorb over a clock account, a rent
account and a freshly deployed upgradeable program whose programdata sits
in the store. -/
theorem ctx_simulate_not_side_effect_free_witness :
    (∀ (eng : Engine) (cs0 : ContextState) (ix : Instruction) (r0 : InstructionResult)
        (cs0' : ContextState), process_instruction_log eng cs0 ix true = some (r0, cs0') →
          cs0'.store = cs0.store) ∧
    (consume_mollusk_result c10State c10Result true).store = c10State.store ∧
    (consume_mollusk_result c10State c10Result true).mollusk.sysvars.clock = c10Clock ∧
    (consume_mollusk_result c10State c10Result true).mollusk.sysvars.rent = c10Rent ∧
    load_program (consume_mollusk_result c10State c10Result true).mollusk.program_cache
        c10P =
      some { account_owner := c10ProgAcct.owner
           , elf := c10PdAcct.data.drop SIZE_OF_PROGRAMDATA_METADATA } :=
  ctx_simulate_not_side_effect_free c10State c10Result c10Clock c10Rent
    c10ClockAcct c10RentAcct c10ProgAcct c10PdAcct c10P c10Pd
    (by decide) rfl (by decide) (by decide)
    (by decide) rfl (by decide) (by decide)
    (by decide) rfl (by decide)
    rfl (by decide) (by decide) (by decide) rfl
